import Mathlib

/-!
# Verification of the Ai_search orchestration and result-fusion pipeline

Shallow embedding of the core of the repository:

* `backend/result_synthesizer.py` (`ResultSynthesizer`): URL normalization,
  deduplication, scoring, ranking, summary generation;
* `backend/query_processor.py` (`QueryProcessor`): intent detection, keyword
  extraction, main-term extraction, deterministic query breakdown;
* `backend/search_orchestrator.py` (`SearchOrchestrator`): batch and streaming
  fan-out over the registered engines.

Strings are modelled as Lean `String`/`List Char`; Python floats are modelled
as exact rationals (`ℚ`); Python dicts that are only built and looked up are
modelled as insertion-ordered association lists.  Each definition mirrors the
Python function of the same (snake-case) name.
-/

namespace AiSearch

/-- ASCII model of Python's `str.lower()`: maps `'A'..'Z'` to `'a'..'z'` and
leaves every other character unchanged. -/
def lowerChar (c : Char) : Char :=
  if 'A' ≤ c ∧ c ≤ 'Z' then Char.ofNat (c.toNat + 32) else c

/-- `s.lower()` on a character list. -/
def lowerList (l : List Char) : List Char := l.map lowerChar

/-- `s.lower()` on a `String`. -/
def lowerStr (s : String) : String := ⟨lowerList s.data⟩

/-- Boolean list-prefix test (used for the anchored regexes `^https?://`,
`^www\.` and for literal matching). -/
def startsWith : List Char → List Char → Bool
  | [], _ => true
  | _ :: _, [] => false
  | p :: ps, c :: cs => p = c && startsWith ps cs

/-- `re.sub(r'^https?://', '', url)`: the anchored regex removes one leading
`"https://"` (greedy `s?` tried first) or `"http://"`, case-sensitively. -/
def stripScheme (l : List Char) : List Char :=
  if startsWith "https://".data l then l.drop 8
  else if startsWith "http://".data l then l.drop 7
  else l

/-- `re.sub(r'^www\.', '', url)`: removes one leading `"www."`,
case-sensitively. -/
def stripWww (l : List Char) : List Char :=
  if startsWith "www.".data l then l.drop 4 else l

/-- `url.rstrip('/')`: drop every trailing `'/'`. -/
def rstripSlash (l : List Char) : List Char :=
  (l.reverse.dropWhile (fun c => c = '/')).reverse

/-- `url.split(sep)[0]`: the characters before the first occurrence of `sep`. -/
def takeUntil (sep : Char) (l : List Char) : List Char :=
  l.takeWhile (fun c => c ≠ sep)

/-- `ResultSynthesizer._normalize_url` (result_synthesizer.py:109-117):
strip one scheme, one leading `"www."`, all trailing slashes, then the query
string and the fragment, and lowercase the result.  Note the source order:
`rstrip('/')` runs *before* `split('?')[0]` / `split('#')[0]`. -/
def normalize_url_list (l : List Char) : List Char :=
  lowerList (takeUntil '#' (takeUntil '?' (rstripSlash (stripWww (stripScheme l)))))

/-- `_normalize_url` on `String`s. -/
def normalize_url (s : String) : String := ⟨normalize_url_list s.data⟩

/-! ## difflib.SequenceMatcher (CPython), specialised to `isjunk=None`

`_is_content_similar` compares snippets with
`SequenceMatcher(None, text1.lower(), text2.lower()).ratio()`.  We embed the
CPython algorithm: `b2j` chaining with the autojunk purge, the
`find_longest_match` dynamic program, and the total matched size of
`get_matching_blocks` (its sort/merge steps do not change the total).
Python dicts used only for lookup are association lists. -/

/-- Look up a key in an association list. -/
def assocFind {α β : Type} [DecidableEq α] (k : α) : List (α × β) → Option β
  | [] => none
  | (k', v) :: rest => if k' = k then some v else assocFind k rest

/-- Look up with a default (`dict.get(k, d)`). -/
def assocFindD {α β : Type} [DecidableEq α] (m : List (α × β)) (k : α) (d : β) : β :=
  (assocFind k m).getD d

/-- `dict[k] = v`: update in place, or append a new binding. -/
def assocSet {α β : Type} [DecidableEq α] (k : α) (v : β) : List (α × β) → List (α × β)
  | [] => [(k, v)]
  | (k', v') :: rest => if k' = k then (k', v) :: rest else (k', v') :: assocSet k v rest

/-- `b2j.setdefault(c, []).append(j)`. -/
def b2jAdd (c : Char) (j : Nat) : List (Char × List Nat) → List (Char × List Nat)
  | [] => [(c, [j])]
  | (c', js) :: rest =>
    if c' = c then (c', js ++ [j]) :: rest else (c', js) :: b2jAdd c j rest

/-- The `for i, elt in enumerate(b)` chaining loop of `__chain_b`. -/
def b2jChain : List Char → Nat → List (Char × List Nat) → List (Char × List Nat)
  | [], _, m => m
  | c :: cs, j, m => b2jChain cs (j + 1) (b2jAdd c j m)

/-- `__chain_b` with `isjunk=None` and `autojunk=True`: build `b2j`, then for
`len(b) >= 200` purge the popular elements (more than `n // 100 + 1`
occurrences). -/
def b2jOf (b : List Char) : List (Char × List Nat) :=
  let m := b2jChain b 0 []
  if b.length ≥ 200 then
    let ntest := b.length / 100 + 1
    m.filter (fun p => ¬ p.2.length > ntest)
  else m

/-- Inner `for j in b2j.get(a[i], [])` loop of `find_longest_match`: carries
`newj2len` and the current best `(besti, bestj, bestsize)`; `continue` below
`blo`, `break` at `bhi`. -/
def flmInner (blo bhi i : Nat) (j2len : List (Nat × Nat)) :
    List Nat → List (Nat × Nat) → Nat × Nat × Nat → List (Nat × Nat) × (Nat × Nat × Nat)
  | [], new, best => (new, best)
  | j :: js, new, best =>
    if j < blo then flmInner blo bhi i j2len js new best
    else if j ≥ bhi then (new, best)
    else
      let k := (if j = 0 then 0 else assocFindD j2len (j - 1) 0) + 1
      let new' := assocSet j k new
      let best' := if k > best.2.2 then (i + 1 - k, j + 1 - k, k) else best
      flmInner blo bhi i j2len js new' best'

/-- Outer `for i in range(alo, ahi)` loop of `find_longest_match`. -/
def flmOuter (a : List Char) (b2j : List (Char × List Nat)) (blo bhi : Nat) :
    List Nat → List (Nat × Nat) → Nat × Nat × Nat → Nat × Nat × Nat
  | [], _, best => best
  | i :: is, j2len, best =>
    let st := flmInner blo bhi i j2len (assocFindD b2j (a.getD i ' ') []) [] best
    flmOuter a b2j blo bhi is st.1 st.2

/-- First `while` extension of `find_longest_match` (no junk, so the junk
test is vacuously passed); `fuel` bounds the walk to the left of `besti`. -/
def flmExtendLeft (a b : List Char) (alo blo : Nat) :
    Nat → Nat × Nat × Nat → Nat × Nat × Nat
  | 0, best => best
  | fuel + 1, (besti, bestj, bestsize) =>
    if besti > alo ∧ bestj > blo ∧ a.getD (besti - 1) ' ' = b.getD (bestj - 1) ' ' then
      flmExtendLeft a b alo blo fuel (besti - 1, bestj - 1, bestsize + 1)
    else (besti, bestj, bestsize)

/-- Second `while` extension of `find_longest_match`. -/
def flmExtendRight (a b : List Char) (ahi bhi : Nat) :
    Nat → Nat × Nat × Nat → Nat × Nat × Nat
  | 0, best => best
  | fuel + 1, (besti, bestj, bestsize) =>
    if besti + bestsize < ahi ∧ bestj + bestsize < bhi ∧
        a.getD (besti + bestsize) ' ' = b.getD (bestj + bestsize) ' ' then
      flmExtendRight a b ahi bhi fuel (besti, bestj, bestsize + 1)
    else (besti, bestj, bestsize)

/-- `SequenceMatcher.find_longest_match(alo, ahi, blo, bhi)` with no junk:
the dynamic program followed by both non-junk extension loops (the two
junk-adjacent loops are vacuous when `bjunk` is empty). -/
def find_longest_match (a b : List Char) (b2j : List (Char × List Nat))
    (alo ahi blo bhi : Nat) : Nat × Nat × Nat :=
  let best := flmOuter a b2j blo bhi (List.range' alo (ahi - alo)) [] (alo, blo, 0)
  let best := flmExtendLeft a b alo blo best.1 best
  flmExtendRight a b ahi bhi (ahi - (best.1 + best.2.2)) best

/-- Total matched size of `get_matching_blocks`: the recursion of the queue
loop (each region contributes its longest match and recurses on both sides);
the final sort and merge of adjacent blocks do not change the total.  `fuel`
dominates the recursion depth, which is bounded by `ahi - alo`. -/
def matchingTotal (a b : List Char) (b2j : List (Char × List Nat)) :
    Nat → Nat → Nat → Nat → Nat → Nat
  | 0, _, _, _, _ => 0
  | fuel + 1, alo, ahi, blo, bhi =>
    let m := find_longest_match a b b2j alo ahi blo bhi
    let i := m.1; let j := m.2.1; let k := m.2.2
    if k = 0 then 0
    else
      k + (if alo < i ∧ blo < j then matchingTotal a b b2j fuel alo i blo j else 0) +
        (if i + k < ahi ∧ j + k < bhi then matchingTotal a b b2j fuel (i + k) ahi (j + k) bhi else 0)

/-- The total matched size of `get_matching_blocks` over the whole of `a`
and `b`. -/
def smTotal (a b : List Char) : Nat :=
  matchingTotal a b (b2jOf b) (a.length + b.length + 1) 0 a.length 0 b.length

/-- `SequenceMatcher(None, a, b).ratio()`: `2 * matches / (len(a) + len(b))`,
or `1.0` when both sequences are empty. -/
def smRatio (a b : List Char) : ℚ :=
  if a.length + b.length = 0 then 1
  else (2 * smTotal a b : ℚ) / (a.length + b.length)

/-- `ResultSynthesizer._is_content_similar` (result_synthesizer.py:119-126):
false when either text is empty, otherwise `ratio > 0.8` on the lowercased
texts.  `0.8` is exactly `4/5`, and for the non-empty texts reaching the
comparison `2·M/T > 4/5 ↔ 10·M > 4·T` (see `is_content_similar_iff_ratio`);
the comparison is stated over `ℕ` so that it evaluates in the kernel. -/
def is_content_similar (text1 text2 : String) : Bool :=
  if text1 = "" ∨ text2 = "" then false
  else
    let a := lowerList text1.data
    let b := lowerList text2.data
    decide (10 * smTotal a b > 4 * (a.length + b.length))

/-! ## Data model -/

/-- `SearchResult` (engines/__init__.py:7-20).  The fields `score`,
`timestamp` and `metadata` are never read by the planner, orchestrator or
synthesizer and are omitted.  As a `@dataclass`, Python equality is
field-wise, matching `DecidableEq`. -/
structure SearchResult where
  title : String
  snippet : String
  url : String
  source : String
  deriving DecidableEq, Repr

/-- A scored result as built by `_score_results` (result_synthesizer.py:173-180):
the result fields plus the `scores` sub-dictionary and `final_score`. -/
structure ScoredResult where
  title : String
  snippet : String
  url : String
  source : String
  relevance : ℚ
  authority : ℚ
  consensus : ℚ
  quality : ℚ
  final_score : ℚ
  deriving DecidableEq, Repr

/-- `raw_results`: the insertion-ordered dict engine name → result list. -/
abbrev RawResults := List (String × List SearchResult)

/-- `ResultSynthesizer._get_source_priority` (result_synthesizer.py:128-137). -/
def get_source_priority (source : String) : Nat :=
  if source = "Wikipedia" then 5
  else if source = "Wikidata" then 4
  else if source = "SearXNG" then 3
  else if source = "DuckDuckGo" then 2
  else if source = "Brave" then 2
  else 1

/-! ## Deduplication -/

/-- `list.remove(x)`: remove the first element equal to `x` (dataclass
equality is structural).  The source raises `ValueError` when `x` is absent;
`_deduplicate` only removes values it has previously appended, so that case
is unreachable there and we return the list unchanged. -/
def listRemove (x : SearchResult) : List SearchResult → List SearchResult
  | [] => []
  | a :: as => if a = x then as else a :: listRemove x as

/-- The `for result in results` loop of `ResultSynthesizer._deduplicate`
(result_synthesizer.py:76-107), with state `seen_urls` (dict canonical
URL → result) and `unique` (the output list).  On an exact canonical-URL
collision the strictly-higher-priority result replaces the existing one via
`remove` + `append`; otherwise the candidate is discarded when its snippet is
similar to any already-accepted snippet. -/
def deduplicateAux : List SearchResult → List (String × SearchResult) →
    List SearchResult → List SearchResult
  | [], _, unique => unique
  | r :: rest, seen_urls, unique =>
    let url := normalize_url r.url
    match assocFind url seen_urls with
    | some existing =>
      if get_source_priority r.source > get_source_priority existing.source then
        deduplicateAux rest (assocSet url r seen_urls) (listRemove existing unique ++ [r])
      else
        deduplicateAux rest seen_urls unique
    | none =>
      if unique.any (fun ex => is_content_similar r.snippet ex.snippet) then
        deduplicateAux rest seen_urls unique
      else
        deduplicateAux rest (assocSet url r seen_urls) (unique ++ [r])

/-- `ResultSynthesizer._deduplicate`. -/
def deduplicate (results : List SearchResult) : List SearchResult :=
  deduplicateAux results [] []

/-! ## Scoring -/

/-- Accumulator form of `str.split()`: `acc` is the current (reversed) run
of non-whitespace characters. -/
def splitWsAux : List Char → List Char → List String
  | [], acc => if acc.isEmpty then [] else [⟨acc.reverse⟩]
  | c :: cs, acc =>
    if c.isWhitespace then
      if acc.isEmpty then splitWsAux cs [] else ⟨acc.reverse⟩ :: splitWsAux cs []
    else splitWsAux cs (c :: acc)

/-- Python's `str.split()` with no argument: maximal runs of
non-whitespace characters. -/
def splitWs (l : List Char) : List String := splitWsAux l []

/-- `set(s.split())` as a `Finset`. -/
def wordSet (s : String) : Finset String := (splitWs s.data).toFinset

/-- `ResultSynthesizer._calculate_relevance` (result_synthesizer.py:184-196):
Jaccard similarity of the query word set and the lowercased title+snippet
word set. -/
def calculate_relevance (r : SearchResult) (query_keywords : Finset String) : ℚ :=
  let words := wordSet (lowerStr (r.title ++ " " ++ r.snippet))
  let inter := query_keywords ∩ words
  let uni := query_keywords ∪ words
  if uni = ∅ then 0 else (inter.card : ℚ) / (uni.card : ℚ)

/-- `ResultSynthesizer._calculate_consensus` (result_synthesizer.py:198-216):
the number of engines whose result list contains a canonical-URL match,
divided by 5 and capped at 1. -/
def calculate_consensus (r : SearchResult) (raw_results : RawResults) : ℚ :=
  let url := normalize_url r.url
  let count := (raw_results.filter
    (fun p => p.2.any (fun r' => normalize_url r'.url = url))).length
  min ((count : ℚ) / 5) 1

/-- `ResultSynthesizer._calculate_quality` (result_synthesizer.py:218-230):
snippet-length buckets. -/
def calculate_quality (r : SearchResult) : ℚ :=
  let snippet_len := r.snippet.length
  if snippet_len = 0 then 0
  else if snippet_len < 50 then 0.3
  else if snippet_len < 150 then 0.7
  else 1

/-- `ResultSynthesizer._score_results` (result_synthesizer.py:139-182). -/
def score_results (query : String) (results : List SearchResult)
    (raw_results : RawResults) : List ScoredResult :=
  let query_keywords := wordSet (lowerStr query)
  results.map (fun r =>
    let relevance := calculate_relevance r query_keywords
    let authority := (get_source_priority r.source : ℚ) / 5
    let consensus := calculate_consensus r raw_results
    let quality := calculate_quality r
    { title := r.title, snippet := r.snippet, url := r.url, source := r.source,
      relevance := relevance, authority := authority, consensus := consensus,
      quality := quality,
      final_score := relevance * 0.4 + authority * 0.3 + consensus * 0.2 + quality * 0.1 })

/-! ## Ranking, summary and synthesis -/

/-- The comparison under `sorted(..., key=lambda x: x['final_score'],
reverse=True)`: `a` may precede `b` iff `a.final_score ≥ b.final_score`. -/
def byScoreDesc (a b : ScoredResult) : Prop := b.final_score ≤ a.final_score

instance : DecidableRel byScoreDesc := fun a b => by
  unfold byScoreDesc; infer_instance

instance : IsTotal ScoredResult byScoreDesc :=
  ⟨fun a b => (le_total b.final_score a.final_score).imp id id⟩

instance : IsTrans ScoredResult byScoreDesc :=
  ⟨fun _ _ _ h h' => le_trans h' h⟩

/-- Python's `sorted` is a stable sort; with `reverse=True` it is the unique
stable non-increasing reordering by key, which insertion sort with
`byScoreDesc` computes. -/
def rankResults (scored : List ScoredResult) : List ScoredResult :=
  List.insertionSort byScoreDesc scored

/-- First-occurrence deduplication, used to model the *contents* of
`set(top_sources)`.  CPython iterates a `set` of strings in an unspecified,
hash-dependent order; we fix first-occurrence order.  No theorem below
depends on the iteration order (it is only observable in `sources_str` when
the top 3 results have at least two distinct sources). -/
def distinctFirst : List String → List String
  | [] => []
  | s :: rest => s :: (distinctFirst rest).filter (fun t => t ≠ s)

/-- The value interpolated for `{unique_count}` in the summary f-string
(result_synthesizer.py:245,252): the length of the (already truncated)
result list passed to `_generate_summary`. -/
def summary_unique_count (results : List ScoredResult) : Nat := results.length

/-- The value interpolated for `{total_sources}` (result_synthesizer.py:244,252):
the total raw result count over all engines. -/
def summary_total_sources (raw_results : RawResults) : Nat :=
  (raw_results.map (fun p => p.2.length)).sum

/-- `ResultSynthesizer._generate_summary` (result_synthesizer.py:232-261). -/
def generate_summary (results : List ScoredResult) (raw_results : RawResults) :
    String :=
  match results with
  | [] => "No results found."
  | best :: _ =>
    let top_sources := (results.take 3).map (fun r => r.source)
    let sources_str := String.intercalate ", " (distinctFirst top_sources)
    let summary := "Found " ++ toString (summary_unique_count results) ++
      " relevant results from " ++ toString (summary_total_sources raw_results) ++
      " total sources. Top information from: " ++ sources_str ++ ". "
    summary ++ "Key finding: " ++ (⟨best.snippet.data.take 150⟩ : String) ++ "..."

/-- The flattening loop of `synthesize` (result_synthesizer.py:42-44). -/
def flattenResults (raw_results : RawResults) : List SearchResult :=
  (raw_results.map (fun p => p.2)).flatten

/-- The sorted scored list (`ranked_results`, result_synthesizer.py:54). -/
def ranked_results (query : String) (raw_results : RawResults) : List ScoredResult :=
  rankResults (score_results query (deduplicate (flattenResults raw_results)) raw_results)

/-- The dictionary returned by `ResultSynthesizer.synthesize`
(result_synthesizer.py:68-74). -/
structure SynthesisOutput where
  results : List ScoredResult
  summary : String
  engine_stats : List (String × Nat)
  total_raw : Nat
  total_unique : Nat
  deriving Repr

/-- `ResultSynthesizer.synthesize` (result_synthesizer.py:18-74): flatten,
deduplicate, score, rank, truncate to `max_results`, summarize. -/
def synthesize (query : String) (raw_results : RawResults)
    (max_results : Nat) : SynthesisOutput :=
  let all_results := flattenResults raw_results
  let unique_results := deduplicate all_results
  let top_results := (ranked_results query raw_results).take max_results
  { results := top_results
    summary := generate_summary top_results raw_results
    engine_stats := raw_results.map (fun p => (p.1, p.2.length))
    total_raw := all_results.length
    total_unique := unique_results.length }

/-! ## QueryProcessor (query_processor.py)

The intent regexes all have the form `\b(?:w1|w2|…)\b` (the alternatives may
contain spaces), searched with `re.IGNORECASE`; we model `re.search` of such
a pattern as: some alternative occurs in the lowercased text with non-word
characters (or the text ends) on both sides. -/

/-- `\w` (ASCII): letters, digits and underscore. -/
def isWordChar (c : Char) : Bool := c.isAlphanum || c = '_'

/-- Does `w` occur in `s` at some position with a word boundary on each
side? -/
def wordOccurs (w s : List Char) : Bool :=
  (List.range (s.length + 1)).any fun i =>
    startsWith w (s.drop i) &&
    (decide (i = 0) || !isWordChar (s.getD (i - 1) ' ')) &&
    !isWordChar (s.getD (i + w.length) ' ')

/-- `re.search(r'\b(?:…)\b', text, re.IGNORECASE) is not None`. -/
def anyWordMatch (ws : List String) (s : List Char) : Bool :=
  ws.any (fun w => wordOccurs w.data s)

/-- `QueryProcessor._detect_intent` (query_processor.py:84-89) with the
`entity_patterns` dict (query_processor.py:14-21), tried in insertion order;
first match wins, default `"general"`.  Note the detector never returns the
string `"factual"`. -/
def detect_intent (query : String) : String :=
  let s := lowerList query.data
  if anyWordMatch ["who", "person", "people", "scientist", "artist", "leader"] s then "person"
  else if anyWordMatch ["where", "place", "city", "country", "location"] s then "location"
  else if anyWordMatch ["when", "date", "year", "time", "period", "age", "era"] s then "time"
  else if anyWordMatch ["what is", "define", "meaning", "definition"] s then "definition"
  else if anyWordMatch ["how", "process", "method", "way"] s then "how"
  else if anyWordMatch ["why", "reason", "cause", "purpose"] s then "why"
  else "general"

/-- Accumulator form of `re.findall(r'\b\w+\b', text)`: `acc` is the
current (reversed) run of word characters. -/
def wordRunsAux : List Char → List Char → List String
  | [], acc => if acc.isEmpty then [] else [⟨acc.reverse⟩]
  | c :: cs, acc =>
    if isWordChar c then wordRunsAux cs (c :: acc)
    else if acc.isEmpty then wordRunsAux cs [] else ⟨acc.reverse⟩ :: wordRunsAux cs []

/-- `re.findall(r'\b\w+\b', text)`: the maximal runs of word characters. -/
def wordRuns (l : List Char) : List String := wordRunsAux l []

/-- The stop-word set of `_extract_keywords` (query_processor.py:94-100). -/
def stop_words : List String :=
  ["a", "an", "the", "is", "are", "was", "were", "be", "been",
   "being", "have", "has", "had", "do", "does", "did",
   "what", "which", "who", "when", "where", "why", "how",
   "and", "or", "but", "in", "on", "at", "to", "for", "of",
   "with", "from", "about", "can", "could", "should", "would"]

/-- `QueryProcessor._extract_keywords` (query_processor.py:91-105): tokenize
the lowercased query, drop stop words and tokens of length ≤ 2. -/
def extract_keywords (query : String) : List String :=
  (wordRuns (lowerList query.data)).filter
    (fun w => w ∉ stop_words ∧ w.length > 2)

/-- Python `str.strip()`: drop leading and trailing whitespace. -/
def pyStrip (l : List Char) : List Char :=
  ((l.dropWhile Char.isWhitespace).reverse.dropWhile Char.isWhitespace).reverse

/-- `str.strip()` on `String`. -/
def pyStripStr (s : String) : String := ⟨pyStrip s.data⟩

/-- Can the trailing `(?:\?|$)` of the `_extract_main_term` patterns match at
position `q`?  Without `re.MULTILINE`, `$` matches at the end of the string
or just before a trailing newline. -/
def tailAnchor (s : List Char) (q : Nat) : Bool :=
  (decide (q < s.length) && decide (s.getD q ' ' = '?')) ||
  decide (q = s.length) ||
  (decide (q + 1 = s.length) && decide (s.getD q ' ' = '\n'))

/-- End position of the lazy group `(.+?)(?:\?|$)` starting at `j`: the least
`q > j` whose preceding characters are all non-newline (`.` does not match
newline) and where the tail anchor matches. -/
def groupEnd (s : List Char) (j : Nat) : Option Nat :=
  (List.range' (j + 1) (s.length - j)).find? fun q =>
    ((s.drop j).take (q - j)).all (fun c => c ≠ '\n') && tailAnchor s q

/-- Try one `_extract_main_term` pattern
`lit(?:art₁|art₂|…)?(.+?)(?:\?|$)` at start position `i`: the literal must
match (case-insensitively, on `sLow`), the optional article alternatives are
tried in regex order (then the empty alternative), and the group is taken
from the original string `sOrig` (`match.group(1)` preserves case). -/
def tryPatternAt (sLow sOrig : List Char) (lit : List Char)
    (articles : List (List Char)) (i : Nat) : Option (List Char) :=
  if startsWith lit (sLow.drop i) then
    let j0 := i + lit.length
    (articles ++ [[]]).findSome? fun art =>
      if startsWith art (sLow.drop j0) then
        match groupEnd sLow (j0 + art.length) with
        | some q => some ((sOrig.drop (j0 + art.length)).take (q - (j0 + art.length)))
        | none => none
      else none
  else none

/-- `re.search` of one `_extract_main_term` pattern: leftmost start wins. -/
def searchMainPattern (sLow sOrig lit : List Char) (articles : List (List Char)) :
    Option (List Char) :=
  (List.range (sLow.length + 1)).findSome? (tryPatternAt sLow sOrig lit articles)

/-- `QueryProcessor._extract_main_term` (query_processor.py:107-120): try the
three patterns in order and strip the first captured group; `""` when none
matches. -/
def extract_main_term (query : String) : String :=
  let sLow := lowerList query.data
  let pats : List (List Char × List (List Char)) :=
    [("what is ".data, ["a ".data, "an ".data, "the ".data]),
     ("define ".data, []),
     ("explain ".data, [])]
  match pats.findSome? (fun p => searchMainPattern sLow query.data p.1 p.2) with
  | some g => ⟨pyStrip g⟩
  | none => ""

/-- The dedup-and-cap loop of `breakdown_query` (query_processor.py:73-82):
append a sub-query when its lowercased-stripped form is unseen and fewer
than 5 entries were kept; finally `[:5]`. -/
def dedupCap : List String → List String → List String → List String
  | [], _, unique_queries => unique_queries.take 5
  | q :: rest, seen, unique_queries =>
    let q_normalized := pyStripStr (lowerStr q)
    if q_normalized ∉ seen ∧ unique_queries.length < 5 then
      dedupCap rest (q_normalized :: seen) (unique_queries ++ [q])
    else
      dedupCap rest seen unique_queries

/-- `QueryProcessor.breakdown_query` (query_processor.py:23-82).  The
`elif intent == 'factual'` branch is kept verbatim even though
`_detect_intent` never returns `"factual"`; intents `"person"`,
`"location"`, `"time"`, `"why"` and `"general"` all fall through to the
final `else` branch. -/
def breakdown_query (query : String) : List String :=
  let query_lower := lowerStr query
  let intent := detect_intent query_lower
  let keywords := extract_keywords query
  let sub_queries : List String :=
    if intent = "definition" then
      let main_term := extract_main_term query
      if main_term ≠ "" then
        [query, main_term ++ " definition", main_term ++ " explanation",
         main_term ++ " examples"]
      else [query]
    else if intent = "how" then
      [query, query ++ " tutorial", query ++ " guide", query ++ " step by step"]
    else if intent = "factual" then
      match keywords with
      | [] => [query]
      | k :: _ =>
        [query, String.intercalate " " (keywords.take 3), k ++ " facts"]
    else
      if keywords.length > 2 then
        [query, String.intercalate " " (keywords.take 2),
         String.intercalate " " (keywords.drop (keywords.length - 2))] ++
          (keywords.take 3).map (fun kw => kw ++ " overview")
      else [query]
  dedupCap sub_queries [] []

/-! ## SearchOrchestrator (search_orchestrator.py)

Engine calls are I/O; we model each registered engine as a name together
with a behaviour `String → EngineOutcome` giving, for the sub-query it is
assigned, either its result list or a failure mode.  `_search_with_timeout`
(search_orchestrator.py:113-133) converts `asyncio.TimeoutError` and any
other exception into `[]`, so a task's settled value is a pure function of
its outcome.  `asyncio.gather(..., return_exceptions=True)` in `search_all`
re-checks for exceptions; both failure paths produce `[]`. -/

inductive EngineOutcome where
  | ok (results : List SearchResult)
  | timeout
  | exn
  deriving DecidableEq, Repr

/-- The settled value of one engine task (`_search_with_timeout` plus the
`isinstance(result, Exception)` arm of `search_all`). -/
def search_with_timeout : EngineOutcome → List SearchResult
  | .ok rs => rs
  | .timeout => []
  | .exn => []

/-- One registered engine: its dict key and its behaviour. -/
abbrev Engines := List (String × (String → EngineOutcome))

/-- `sub_queries[len(tasks) % len(sub_queries)]` (search_orchestrator.py:50):
the i-th engine in registration order is assigned sub-query `i mod n`. -/
def assignedQuery (sub_queries : List String) (i : Nat) : String :=
  sub_queries.getD (i % sub_queries.length) ""

/-- The task-creation and collection loops of `SearchOrchestrator.search_all`
(search_orchestrator.py:28-74): one entry per registered engine, in
registration order, each holding its task's settled value. -/
def search_allAux (sub_queries : List String) :
    Nat → Engines → List (String × List SearchResult)
  | _, [] => []
  | i, (name, behaviour) :: rest =>
    (name, search_with_timeout (behaviour (assignedQuery sub_queries i))) ::
      search_allAux sub_queries (i + 1) rest

/-- Batch mode: `SearchOrchestrator.search_all`. -/
def search_all (engines : Engines) (sub_queries : List String) :
    List (String × List SearchResult) :=
  search_allAux sub_queries 0 engines

/-- Streaming mode: `SearchOrchestrator.search_all_streaming`
(search_orchestrator.py:76-111).  The task set and sub-query assignment are
those of `search_all` (the `while tasks` loop yields every task exactly
once, converting a raised exception into `[]` just as the task itself
does); the `FIRST_COMPLETED` completion order is nondeterministic and is
modelled by an explicit `order` parameter, a permutation of the task
indices. -/
def search_all_streaming (engines : Engines) (sub_queries : List String)
    (order : List Nat) : List (String × List SearchResult) :=
  order.map (fun i => (search_all engines sub_queries).getD i ("", []))

/-- The fold that determines, in `_deduplicate`, which of several results
sharing one canonical URL survives: the current champion is replaced only by
a strictly-higher-priority newcomer, so the first-seen result of maximal
priority wins. -/
def champStep (c : Option SearchResult) (r : SearchResult) : Option SearchResult :=
  match c with
  | none => some r
  | some c' =>
    if get_source_priority r.source > get_source_priority c'.source then some r
    else some c'

/-- Fold `champStep` over a list of candidates. -/
def champFold (c : Option SearchResult) (l : List SearchResult) : Option SearchResult :=
  l.foldl champStep c

/-- Does a result's canonical URL equal `u`? -/
def urlMatches (u : String) (r : SearchResult) : Bool := normalize_url r.url = u

end AiSearch

namespace AiSearch

/-! ## Generic helper lemmas -/

theorem lowerChar_eq_self {c : Char} (h : ¬('A' ≤ c ∧ c ≤ 'Z')) : lowerChar c = c :=
  if_neg h

theorem lowerList_eq_self {l : List Char} (h : ∀ c ∈ l, ¬('A' ≤ c ∧ c ≤ 'Z')) :
    lowerList l = l := by
  induction l with
  | nil => rfl
  | cons a t ih =>
    have ih' : List.map lowerChar t = t := ih fun c hc => h c (List.mem_cons_of_mem a hc)
    simp only [lowerList, List.map_cons]
    rw [lowerChar_eq_self (h a (List.mem_cons_self a t)), ih']

theorem takeUntil_eq_self {sep : Char} {l : List Char} (h : sep ∉ l) :
    takeUntil sep l = l := by
  induction l with
  | nil => rfl
  | cons a t ih =>
    have ha : a ≠ sep := fun hh => h (hh ▸ List.mem_cons_self a t)
    have ih' := ih (fun hm => h (List.mem_cons_of_mem a hm))
    simp only [takeUntil] at ih' ⊢
    simp [List.takeWhile_cons, ha, ih']
    intro x hx he
    exact h (List.mem_cons_of_mem a (he ▸ hx))

theorem rstripSlash_eq_append (l : List Char) : ∃ t, l = rstripSlash l ++ t := by
  refine ⟨(l.reverse.takeWhile (fun c => c = '/')).reverse, ?_⟩
  unfold rstripSlash
  conv_lhs => rw [← l.reverse_reverse]
  rw [← List.reverse_append, List.takeWhile_append_dropWhile]

theorem mem_of_mem_rstripSlash {c : Char} {l : List Char} (h : c ∈ rstripSlash l) :
    c ∈ l := by
  obtain ⟨t, ht⟩ := rstripSlash_eq_append l
  rw [ht]
  exact List.mem_append_left t h

theorem startsWith_append {w v t : List Char} (h : startsWith w v = true) :
    startsWith w (v ++ t) = true := by
  induction w generalizing v with
  | nil => rfl
  | cons p ps ih =>
    cases v with
    | nil => simp [startsWith] at h
    | cons c cs =>
      simp only [startsWith, Bool.and_eq_true] at h ⊢
      exact ⟨h.1, ih h.2⟩

theorem startsWith_rstripSlash_false {w l : List Char}
    (h : startsWith w l = false) : startsWith w (rstripSlash l) = false := by
  cases hh : startsWith w (rstripSlash l) with
  | false => rfl
  | true =>
    obtain ⟨t, ht⟩ := rstripSlash_eq_append l
    have := startsWith_append (t := t) hh
    rw [← ht, h] at this
    exact this.symm

theorem dropWhile_idem {p : Char → Bool} {l : List Char} :
    (l.dropWhile p).dropWhile p = l.dropWhile p := by
  induction l with
  | nil => rfl
  | cons a t ih =>
    by_cases hp : p a = true
    · simpa [List.dropWhile_cons, hp] using ih
    · simp [List.dropWhile_cons, hp]

theorem rstripSlash_idem (l : List Char) : rstripSlash (rstripSlash l) = rstripSlash l := by
  unfold rstripSlash
  rw [List.reverse_reverse, dropWhile_idem]

/-! ## Claim C1: URL-normalization idempotence -/

/-- Claim C1, counterexample.  `_normalize_url` applies `rstrip('/')` before
removing the query string, so `"a/?q"` normalizes to `"a/"`: the trailing
slash survives, and a second application strips further — normalization is
neither trailing-slash-stripping nor idempotent on this input. -/
theorem normalize_url_not_idempotent :
    normalize_url "a/?q" = "a/" ∧
    normalize_url (normalize_url "a/?q") = "a" ∧
    (("a/" : String) = "a") = False :=
  ⟨by decide, by decide, eq_false (by decide)⟩

/-- Claim C1, amended.  Normalization strips one leading lowercase scheme,
then one leading `"www."`, then all trailing slashes, then the query string
and fragment, and lowercases last.  It is idempotent on inputs that contain
no `'?'` or `'#'`, contain no uppercase ASCII letter, and do not start with
a scheme or `"www."`; on other inputs a second application can strip further
(a slash exposed by query removal, a scheme or `"www."` exposed by
lowercasing or by a first strip). -/
theorem normalize_url_idempotent_on_plain (u : List Char)
    (hq : '?' ∉ u) (hh : '#' ∉ u)
    (hup : ∀ c ∈ u, ¬('A' ≤ c ∧ c ≤ 'Z'))
    (hs1 : startsWith "https://".data u = false)
    (hs2 : startsWith "http://".data u = false)
    (hw : startsWith "www.".data u = false) :
    normalize_url_list (normalize_url_list u) = normalize_url_list u := by
  have norm_eq : ∀ v : List Char, '?' ∉ v → '#' ∉ v →
      (∀ c ∈ v, ¬('A' ≤ c ∧ c ≤ 'Z')) →
      startsWith "https://".data v = false → startsWith "http://".data v = false →
      startsWith "www.".data v = false →
      normalize_url_list v = rstripSlash v := by
    intro v hq' hh' hup' h1 h2 h3
    have e1 : stripScheme v = v := by
      unfold stripScheme; rw [h1, h2]; simp
    have e2 : stripWww v = v := by
      unfold stripWww; rw [h3]; simp
    unfold normalize_url_list
    rw [e1, e2,
      takeUntil_eq_self (fun hm => hq' (mem_of_mem_rstripSlash hm)),
      takeUntil_eq_self (fun hm => hh' (mem_of_mem_rstripSlash hm))]
    exact lowerList_eq_self fun c hc => hup' c (mem_of_mem_rstripSlash hc)
  rw [norm_eq u hq hh hup hs1 hs2 hw]
  rw [norm_eq (rstripSlash u)
    (fun hm => hq (mem_of_mem_rstripSlash hm))
    (fun hm => hh (mem_of_mem_rstripSlash hm))
    (fun c hc => hup c (mem_of_mem_rstripSlash hc))
    (startsWith_rstripSlash_false hs1)
    (startsWith_rstripSlash_false hs2)
    (startsWith_rstripSlash_false hw)]
  exact rstripSlash_idem u

/-- Witness for `normalize_url_idempotent_on_plain` at a concrete URL. -/
theorem normalize_url_idempotent_on_plain_witness :
    normalize_url_list (normalize_url_list "example.com/path/".data) =
      normalize_url_list "example.com/path/".data :=
  normalize_url_idempotent_on_plain "example.com/path/".data
    (by decide) (by decide) (by decide) (by decide) (by decide) (by decide)

/-! ## Claim C2: the `factual` planner branch is dead code -/

/-- Claim C2.  `breakdown_query` guards its keyword sub-queries with
`intent == 'factual'`, but `_detect_intent` returns one of `"person"`,
`"location"`, `"time"`, `"definition"`, `"how"`, `"why"`, `"general"` and
never `"factual"` — its own comment says the branch is "For factual queries
(who, when, where)".  Hence a person-intent query with extracted keywords,
such as `"who is albert einstein"`, receives neither the joined top-3
keywords `"albert einstein"` nor `"albert facts"`. -/
theorem factual_branch_dead :
    (∀ s : String, (detect_intent s = "factual") = False) ∧
    detect_intent (lowerStr "who is albert einstein") = "person" ∧
    extract_keywords "who is albert einstein" = ["albert", "einstein"] ∧
    breakdown_query "who is albert einstein" = ["who is albert einstein"] ∧
    (breakdown_query "who is albert einstein").contains "albert einstein" = false ∧
    (breakdown_query "who is albert einstein").contains "albert facts" = false := by
  refine ⟨?_, by decide, by decide, by decide, by decide, by decide⟩
  intro s
  unfold detect_intent
  dsimp only
  split
  · simp
  · split
    · simp
    · split
      · simp
      · split
        · simp
        · split
          · simp
          · split <;> simp

/-! ## Claim C9: planner output invariants -/

/-- The normal form used by the planner's dedup loop:
`q.lower().strip()`. -/
def subqueryNorm (q : String) : String := pyStripStr (lowerStr q)

theorem dedupCap_eq_append :
    ∀ (l seen acc : List String), acc.length ≤ 5 →
      ∃ t, dedupCap l seen acc = acc ++ t := by
  intro l
  induction l with
  | nil =>
    intro seen acc h
    exact ⟨[], by simp [dedupCap, List.take_of_length_le h]⟩
  | cons q rest ih =>
    intro seen acc h
    simp only [dedupCap]
    by_cases hc : pyStripStr (lowerStr q) ∉ seen ∧ acc.length < 5
    · rw [if_pos hc]
      obtain ⟨t, ht⟩ := ih (pyStripStr (lowerStr q) :: seen) (acc ++ [q]) (by simp; omega)
      exact ⟨q :: t, by rw [ht, List.append_assoc]; rfl⟩
    · rw [if_neg hc]
      exact ih seen acc h

theorem dedupCap_length :
    ∀ (l seen acc : List String), acc.length ≤ 5 →
      (dedupCap l seen acc).length ≤ 5 := by
  intro l
  induction l with
  | nil =>
    intro seen acc _
    simp [dedupCap]
  | cons q rest ih =>
    intro seen acc h
    simp only [dedupCap]
    by_cases hc : pyStripStr (lowerStr q) ∉ seen ∧ acc.length < 5
    · rw [if_pos hc]
      exact ih _ _ (by simp; omega)
    · rw [if_neg hc]
      exact ih seen acc h

theorem dedupCap_nodup :
    ∀ (l seen acc : List String),
      (∀ a ∈ acc, subqueryNorm a ∈ seen) →
      (acc.map subqueryNorm).Nodup →
      ((dedupCap l seen acc).map subqueryNorm).Nodup := by
  intro l
  induction l with
  | nil =>
    intro seen acc _ hnd
    simp only [dedupCap, ← List.map_take]
    exact hnd.sublist ((acc.take_sublist 5).map subqueryNorm)
  | cons q rest ih =>
    intro seen acc hsub hnd
    simp only [dedupCap]
    by_cases hc : pyStripStr (lowerStr q) ∉ seen ∧ acc.length < 5
    · rw [if_pos hc]
      refine ih _ _ ?_ ?_
      · intro a ha
        rcases List.mem_append.1 ha with ha | ha
        · exact List.mem_cons_of_mem _ (hsub a ha)
        · simp only [List.mem_singleton] at ha
          subst ha
          exact List.mem_cons_self _ _
      · have hq : subqueryNorm q ∉ acc.map subqueryNorm := by
          intro hmem
          obtain ⟨a, ha, he⟩ := List.mem_map.1 hmem
          have hqs : subqueryNorm q ∈ seen := he ▸ hsub a ha
          exact hc.1 hqs
        simp only [List.map_append, List.map_cons, List.map_nil]
        rw [List.nodup_append]
        exact ⟨hnd, List.nodup_singleton _, by
          intro x hx
          simp only [List.mem_singleton]
          intro he
          exact hq (he ▸ hx)⟩
    · rw [if_neg hc]
      exact ih seen acc hsub hnd

theorem breakdown_query_shape (query : String) :
    ∃ rest, breakdown_query query = dedupCap (query :: rest) [] [] := by
  unfold breakdown_query
  dsimp only
  split
  · split
    · exact ⟨_, rfl⟩
    · exact ⟨_, rfl⟩
  · split
    · exact ⟨_, rfl⟩
    · split
      · split
        · exact ⟨_, rfl⟩
        · exact ⟨_, rfl⟩
      · split
        · exact ⟨_, rfl⟩
        · exact ⟨_, rfl⟩

/-- Claim C9.  The deterministic planner always returns the original query
first, keeps no two entries with the same lowercased-stripped text, and
returns at most 5 entries; on `"what is photosynthesis"` it returns the
original plus the definition/explanation/examples variants. -/
theorem breakdown_query_invariants :
    (∀ query : String,
      (breakdown_query query).head? = some query ∧
      ((breakdown_query query).map subqueryNorm).Nodup ∧
      (breakdown_query query).length ≤ 5) ∧
    breakdown_query "what is photosynthesis" =
      ["what is photosynthesis", "photosynthesis definition",
       "photosynthesis explanation", "photosynthesis examples"] := by
  constructor
  · intro query
    obtain ⟨rest, hb⟩ := breakdown_query_shape query
    have hstep : dedupCap (query :: rest) [] [] =
        dedupCap rest [pyStripStr (lowerStr query)] [query] := by
      simp only [dedupCap]
      rw [if_pos (by simp)]
      rfl
    refine ⟨?_, ?_, ?_⟩
    · rw [hb, hstep]
      obtain ⟨t, ht⟩ := dedupCap_eq_append rest [pyStripStr (lowerStr query)] [query]
        (by simp)
      rw [ht]
      rfl
    · rw [hb]
      exact dedupCap_nodup _ _ _ (by simp) (by simp)
    · rw [hb]
      exact dedupCap_length _ _ _ (by simp)
  · decide

/-! ## Deduplication lemmas (claims C4 and C5) -/

/-- The integer comparison inside `is_content_similar` is exactly
`ratio > 0.8`: for the non-empty texts that reach it,
`2·M/T > 4/5 ↔ 10·M > 4·T`. -/
theorem is_content_similar_iff_ratio (t1 t2 : String) :
    is_content_similar t1 t2 = true ↔
      t1 ≠ "" ∧ t2 ≠ "" ∧
        (4 / 5 : ℚ) < smRatio (lowerList t1.data) (lowerList t2.data) := by
  unfold is_content_similar smRatio
  by_cases h1 : t1 = ""
  · simp [h1]
  by_cases h2 : t2 = ""
  · simp [h1, h2]
  have hd : t1.data ≠ [] := fun hn => h1 (by cases t1; simp_all)
  have hT : 0 < (lowerList t1.data).length + (lowerList t2.data).length := by
    have : 0 < t1.data.length := List.length_pos.2 hd
    simp only [lowerList, List.length_map]
    omega
  simp only [h1, h2, or_self, if_false, ne_eq, not_false_eq_true, true_and,
    Nat.pos_iff_ne_zero.1 hT, if_neg (Nat.pos_iff_ne_zero.1 hT)]
  rw [div_lt_div_iff₀ (by norm_num) (by exact_mod_cast hT)]
  constructor
  · intro h
    have h' := of_decide_eq_true h
    exact_mod_cast (by omega : 4 * ((lowerList t1.data).length + (lowerList t2.data).length) < 2 * smTotal (lowerList t1.data) (lowerList t2.data) * 5)
  · intro h
    apply decide_eq_true
    have h' : (4 * ((lowerList t1.data).length + (lowerList t2.data).length) : ℚ) <
        2 * smTotal (lowerList t1.data) (lowerList t2.data) * 5 := by push_cast at h ⊢; linarith
    have h'' : 4 * ((lowerList t1.data).length + (lowerList t2.data).length) <
        2 * smTotal (lowerList t1.data) (lowerList t2.data) * 5 := by exact_mod_cast h'
    omega

theorem assocFind_assocSet_self {β : Type} (k : String) (v : β)
    (m : List (String × β)) : assocFind k (assocSet k v m) = some v := by
  induction m with
  | nil => simp [assocFind, assocSet]
  | cons p rest ih =>
    by_cases hp : p.1 = k
    · simp [assocSet, assocFind, hp]
    · simp [assocSet, assocFind, hp, ih]

theorem assocFind_assocSet_ne {β : Type} {k k' : String} (h : k' ≠ k) (v : β)
    (m : List (String × β)) : assocFind k (assocSet k' v m) = assocFind k m := by
  induction m with
  | nil => simp [assocFind, assocSet, h]
  | cons p rest ih =>
    by_cases hp : p.1 = k'
    · simp [assocSet, assocFind, hp, h]
    · simp only [assocSet, if_neg hp, assocFind]
      by_cases hk : p.1 = k <;> simp [hk, ih]

theorem mem_listRemove {x y : SearchResult} :
    ∀ {l : List SearchResult}, y ∈ listRemove x l → y ∈ l := by
  intro l
  induction l with
  | nil => simp [listRemove]
  | cons a rest ih =>
    simp only [listRemove]
    by_cases ha : a = x
    · rw [if_pos ha]
      exact fun h => List.mem_cons_of_mem a h
    · rw [if_neg ha]
      intro h
      rcases List.mem_cons.1 h with h | h
      · exact h ▸ List.mem_cons_self a rest
      · exact List.mem_cons_of_mem a (ih h)

theorem filter_listRemove_pos {x : SearchResult} {p : SearchResult → Bool}
    (hx : p x = true) :
    ∀ (l : List SearchResult), (listRemove x l).filter p = listRemove x (l.filter p) := by
  intro l
  induction l with
  | nil => rfl
  | cons a rest ih =>
    by_cases ha : a = x
    · subst ha
      simp [listRemove, List.filter_cons, hx]
    · by_cases hp : p a = true
      · simp [listRemove, ha, List.filter_cons, hp, ih]
      · simp only [Bool.not_eq_true] at hp
        simp [listRemove, ha, List.filter_cons, hp, ih]

theorem filter_listRemove_neg {x : SearchResult} {p : SearchResult → Bool}
    (hx : p x = false) :
    ∀ (l : List SearchResult), (listRemove x l).filter p = l.filter p := by
  intro l
  induction l with
  | nil => rfl
  | cons a rest ih =>
    by_cases ha : a = x
    · subst ha
      simp [listRemove, List.filter_cons, hx]
    · simp [listRemove, ha, List.filter_cons, ih]

/-- The state invariant of `_deduplicate`'s loop: assuming the snippet-
similarity test never fires between *distinct* pending/accepted results
(a result is never compared against itself: when a value-equal result is
reprocessed, its canonical URL is already registered and it takes the
URL-collision path), the accepted results with canonical URL `u` are
exactly the current champion for `u`, and after the loop the champion is
the first-seen result of maximal source priority. -/
theorem deduplicateAux_filter (u : String) :
    ∀ (l : List SearchResult) (seen : List (String × SearchResult))
      (unique : List SearchResult),
      (∀ a ∈ l, ∀ ex ∈ unique, a ≠ ex → is_content_similar a.snippet ex.snippet = false) →
      (∀ a ∈ l, ∀ b ∈ l, a ≠ b → is_content_similar a.snippet b.snippet = false) →
      (∀ v, unique.filter (urlMatches v) = (assocFind v seen).toList) →
      (deduplicateAux l seen unique).filter (urlMatches u) =
        (champFold (assocFind u seen) (l.filter (urlMatches u))).toList := by
  intro l
  induction l with
  | nil =>
    intro seen unique _ _ hinv
    exact hinv u
  | cons r rest ih =>
    intro seen unique H0 H1 hinv
    have hsim_tail : ∀ a ∈ rest, ∀ b ∈ rest, a ≠ b →
        is_content_similar a.snippet b.snippet = false :=
      fun a ha b hb hne =>
        H1 a (List.mem_cons_of_mem r ha) b (List.mem_cons_of_mem r hb) hne
    simp only [deduplicateAux]
    cases hfind : assocFind (normalize_url r.url) seen with
    | some existing =>
      have pexist : urlMatches (normalize_url r.url) existing = true := by
        have hmem : existing ∈ unique.filter (urlMatches (normalize_url r.url)) := by
          rw [hinv (normalize_url r.url), hfind]
          exact List.mem_cons_self _ _
        exact List.of_mem_filter hmem
      have hexu : normalize_url existing.url = normalize_url r.url := by
        simpa [urlMatches] using pexist
      dsimp only
      by_cases hprio : get_source_priority r.source > get_source_priority existing.source
      · rw [if_pos hprio]
        have hres := ih (assocSet (normalize_url r.url) r seen)
          (listRemove existing unique ++ [r])
          (by
            intro a ha ex hex hne
            rcases List.mem_append.1 hex with hex | hex
            · exact H0 a (List.mem_cons_of_mem r ha) ex (mem_listRemove hex) hne
            · simp only [List.mem_singleton] at hex
              rw [hex] at hne ⊢
              exact H1 a (List.mem_cons_of_mem r ha) r (List.mem_cons_self r rest) hne)
          hsim_tail
          (by
            intro v
            rw [List.filter_append]
            by_cases hv : v = normalize_url r.url
            · subst hv
              rw [filter_listRemove_pos pexist, hinv (normalize_url r.url), hfind]
              simp [listRemove, assocFind_assocSet_self, urlMatches]
            · have hv' : normalize_url r.url ≠ v := fun h => hv h.symm
              have hvx : urlMatches v existing = false := by
                simp [urlMatches, hexu, hv']
              rw [filter_listRemove_neg hvx, hinv v, assocFind_assocSet_ne hv']
              simp [urlMatches, hv'])
        rw [hres]
        by_cases hu : u = normalize_url r.url
        · subst hu
          rw [assocFind_assocSet_self, hfind]
          simp only [List.filter_cons, urlMatches, decide_eq_true_eq, eq_self_iff_true,
            if_true]
          simp only [champFold, List.foldl_cons, champStep, if_pos hprio]
        · have hu' : normalize_url r.url ≠ u := fun h => hu h.symm
          rw [assocFind_assocSet_ne hu']
          simp only [List.filter_cons, urlMatches, decide_eq_true_eq]
          rw [if_neg hu']
      · rw [if_neg hprio]
        have hres := ih seen unique
          (fun a ha ex hex hne => H0 a (List.mem_cons_of_mem r ha) ex hex hne)
          hsim_tail hinv
        rw [hres]
        by_cases hu : u = normalize_url r.url
        · subst hu
          rw [hfind]
          simp only [List.filter_cons, urlMatches, decide_eq_true_eq, eq_self_iff_true,
            if_true]
          simp only [champFold, List.foldl_cons, champStep, if_neg hprio]
        · have hu' : normalize_url r.url ≠ u := fun h => hu h.symm
          simp only [List.filter_cons, urlMatches, decide_eq_true_eq]
          rw [if_neg hu']
    | none =>
      have hany : (unique.any fun ex => is_content_similar r.snippet ex.snippet) = false :=
        List.any_eq_false.2 fun ex hex => by
          by_cases hexr : r = ex
          · exfalso
            have hmem : ex ∈ unique.filter (urlMatches (normalize_url ex.url)) :=
              List.mem_filter.2 ⟨hex, by simp [urlMatches]⟩
            rw [hinv (normalize_url ex.url), ← hexr, hfind] at hmem
            simp at hmem
          · rw [H0 r (List.mem_cons_self r rest) ex hex hexr]
            exact Bool.false_ne_true
      dsimp only
      rw [hany]
      simp only [Bool.false_eq_true, if_false]
      have hres := ih (assocSet (normalize_url r.url) r seen) (unique ++ [r])
        (by
          intro a ha ex hex hne
          rcases List.mem_append.1 hex with hex | hex
          · exact H0 a (List.mem_cons_of_mem r ha) ex hex hne
          · simp only [List.mem_singleton] at hex
            rw [hex] at hne ⊢
            exact H1 a (List.mem_cons_of_mem r ha) r (List.mem_cons_self r rest) hne)
        hsim_tail
        (by
          intro v
          rw [List.filter_append]
          by_cases hv : v = normalize_url r.url
          · subst hv
            rw [hinv (normalize_url r.url), hfind]
            simp [assocFind_assocSet_self, urlMatches]
          · have hv' : normalize_url r.url ≠ v := fun h => hv h.symm
            rw [hinv v, assocFind_assocSet_ne hv']
            simp [urlMatches, hv'])
      rw [hres]
      by_cases hu : u = normalize_url r.url
      · subst hu
        rw [assocFind_assocSet_self, hfind]
        simp only [List.filter_cons, urlMatches, decide_eq_true_eq, eq_self_iff_true,
          if_true]
        simp only [champFold, List.foldl_cons, champStep]
      · have hu' : normalize_url r.url ≠ u := fun h => hu h.symm
        rw [assocFind_assocSet_ne hu']
        simp only [List.filter_cons, urlMatches, decide_eq_true_eq]
        rw [if_neg hu']

/-! ## Claim C5: URL-collision dedup and source priority -/

/-- Claim C5, counterexample.  A result discarded by the snippet-similarity
path never registers its canonical URL, so a later same-URL result of
strictly *lower* priority can survive: with input
`[⟨v, Wikipedia, "ab"⟩, ⟨u, Wikipedia, "ab"⟩, ⟨u, DuckDuckGo, "zz"⟩]`, the
second result (priority 5) is discarded as a near-duplicate of the first,
and the third (priority 2, same canonical URL `u`) is retained. -/
theorem dedup_priority_counterexample :
    deduplicate [⟨"", "ab", "v", "Wikipedia"⟩, ⟨"", "ab", "u", "Wikipedia"⟩,
        ⟨"", "zz", "u", "DuckDuckGo"⟩] =
      [⟨"", "ab", "v", "Wikipedia"⟩, ⟨"", "zz", "u", "DuckDuckGo"⟩] ∧
    normalize_url (⟨"", "ab", "u", "Wikipedia"⟩ : SearchResult).url =
      normalize_url (⟨"", "zz", "u", "DuckDuckGo"⟩ : SearchResult).url ∧
    get_source_priority "DuckDuckGo" < get_source_priority "Wikipedia" ∧
    ([⟨"", "ab", "v", "Wikipedia"⟩, ⟨"", "zz", "u", "DuckDuckGo"⟩] :
        List SearchResult).contains ⟨"", "ab", "u", "Wikipedia"⟩ = false := by
  refine ⟨by decide, by decide, by decide, by decide⟩

/-- Claim C5, amended.  Provided no two distinct input results have
near-duplicate snippets — so no result is discarded by the snippet
similarity check (the loop never compares a result against itself: a
value-equal reoccurrence finds its canonical URL already registered and
takes the URL-collision path) — the results with a given canonical URL
retained by deduplication are exactly one champion: the first-seen result
of maximal source priority among those sharing that URL (a strictly higher
priority replaces, ties keep the first seen).  In particular, in the
encyclopedia-vs-open-index scenario the Wikipedia result (priority 5) is the
unique survivor for both flattening orders. -/
theorem dedup_priority_champion :
    (∀ (l : List SearchResult) (u : String),
      (∀ a ∈ l, ∀ b ∈ l, a ≠ b → is_content_similar a.snippet b.snippet = false) →
      (deduplicate l).filter (urlMatches u) =
        (champFold none (l.filter (urlMatches u))).toList) ∧
    deduplicate [⟨"Photosynthesis", "", "https://en.wikipedia.org/wiki/Photosynthesis", "Wikipedia"⟩,
        ⟨"Photosynthesis", "", "https://en.wikipedia.org/wiki/Photosynthesis/", "DuckDuckGo"⟩] =
      [⟨"Photosynthesis", "", "https://en.wikipedia.org/wiki/Photosynthesis", "Wikipedia"⟩] ∧
    deduplicate [⟨"Photosynthesis", "", "https://en.wikipedia.org/wiki/Photosynthesis/", "DuckDuckGo"⟩,
        ⟨"Photosynthesis", "", "https://en.wikipedia.org/wiki/Photosynthesis", "Wikipedia"⟩] =
      [⟨"Photosynthesis", "", "https://en.wikipedia.org/wiki/Photosynthesis", "Wikipedia"⟩] := by
  refine ⟨?_, by decide, by decide⟩
  intro l u h
  unfold deduplicate
  exact deduplicateAux_filter u l [] [] (by simp) h (fun v => rfl)

/-- Witness for `dedup_priority_champion` at a concrete two-result
collision with ordinary, non-empty, dissimilar snippets. -/
theorem dedup_priority_champion_witness :
    (deduplicate [⟨"T1", "a lower priority result", "u", "Brave"⟩,
        ⟨"T2", "zzz qqq xxx", "u", "Wikidata"⟩]).filter (urlMatches "u") =
      (champFold none ([(⟨"T1", "a lower priority result", "u", "Brave"⟩ : SearchResult),
        ⟨"T2", "zzz qqq xxx", "u", "Wikidata"⟩].filter (urlMatches "u"))).toList :=
  dedup_priority_champion.1 [⟨"T1", "a lower priority result", "u", "Brave"⟩,
      ⟨"T2", "zzz qqq xxx", "u", "Wikidata"⟩] "u"
    (by decide)

/-! ## Claim C4: deduplication and encounter order -/

/-- Claim C4, counterexample.  When a later higher-priority result replaces
an accepted one, `_deduplicate` does `unique.remove(existing)` followed by
`unique.append(result)`: the survivor moves to the *end* of the output, it
does not keep the position where its canonical URL was first seen. -/
theorem dedup_order_counterexample :
    deduplicate [⟨"", "", "u", "DuckDuckGo"⟩, ⟨"", "", "v", "X"⟩,
        ⟨"", "", "u", "Wikipedia"⟩] =
      [⟨"", "", "v", "X"⟩, ⟨"", "", "u", "Wikipedia"⟩] ∧
    (([(⟨"", "", "v", "X"⟩ : SearchResult), ⟨"", "", "u", "Wikipedia"⟩] : List SearchResult) =
      [⟨"", "", "u", "Wikipedia"⟩, ⟨"", "", "v", "X"⟩]) = False :=
  ⟨by decide, eq_false (by decide)⟩

theorem deduplicateAux_sublist :
    ∀ (l : List SearchResult) (seen : List (String × SearchResult))
      (unique : List SearchResult),
      (∀ r ∈ l, assocFind (normalize_url r.url) seen = none) →
      l.Pairwise (fun a b => normalize_url a.url ≠ normalize_url b.url) →
      ∃ l', List.Sublist l' l ∧ deduplicateAux l seen unique = unique ++ l' := by
  intro l
  induction l with
  | nil =>
    intro seen unique _ _
    exact ⟨[], List.Sublist.refl [], by simp [deduplicateAux]⟩
  | cons r rest ih =>
    intro seen unique hseen hpw
    obtain ⟨hr, hpw'⟩ := List.pairwise_cons.1 hpw
    have hfind := hseen r (List.mem_cons_self r rest)
    simp only [deduplicateAux, hfind]
    by_cases hany : (unique.any fun ex => is_content_similar r.snippet ex.snippet) = true
    · rw [hany]
      simp only [if_true]
      obtain ⟨l', hsub, heq⟩ := ih seen unique
        (fun r' hr' => hseen r' (List.mem_cons_of_mem r hr')) hpw'
      exact ⟨l', hsub.cons r, heq⟩
    · rw [Bool.not_eq_true] at hany
      rw [hany]
      simp only [Bool.false_eq_true, if_false]
      obtain ⟨l', hsub, heq⟩ := ih (assocSet (normalize_url r.url) r seen) (unique ++ [r])
        (fun r' hr' => by
          rw [assocFind_assocSet_ne (hr r' hr')]
          exact hseen r' (List.mem_cons_of_mem r hr'))
        hpw'
      refine ⟨r :: l', hsub.cons₂ r, ?_⟩
      rw [heq, List.append_assoc]
      rfl

/-- Claim C4, amended.  Surviving results keep the order in which they were
accepted, but a higher-priority replacement removes the earlier occurrence
and appends the survivor at the end.  When no two input results share a
canonical URL (so no replacement can occur), the output preserves encounter
order: it is a sublist of the input.  The second conjunct shows the
replacement case: the survivor for URL `w` ends up *after* the result whose
URL was seen later. -/
theorem dedup_preserves_encounter_order :
    (∀ l : List SearchResult,
      l.Pairwise (fun a b => normalize_url a.url ≠ normalize_url b.url) →
      List.Sublist (deduplicate l) l) ∧
    deduplicate [⟨"", "", "w", "Brave"⟩, ⟨"", "", "x", "Y"⟩, ⟨"", "", "w", "Wikidata"⟩] =
      [⟨"", "", "x", "Y"⟩, ⟨"", "", "w", "Wikidata"⟩] := by
  refine ⟨?_, by decide⟩
  intro l hpw
  obtain ⟨l', hsub, heq⟩ := deduplicateAux_sublist l [] [] (fun r _ => rfl) hpw
  unfold deduplicate
  rw [heq]
  exact hsub

/-- Witness for `dedup_preserves_encounter_order` on two distinct URLs. -/
theorem dedup_preserves_encounter_order_witness :
    List.Sublist (deduplicate [⟨"", "", "p", "A"⟩, ⟨"", "", "q", "B"⟩])
      [⟨"", "", "p", "A"⟩, ⟨"", "", "q", "B"⟩] :=
  dedup_preserves_encounter_order.1 [⟨"", "", "p", "A"⟩, ⟨"", "", "q", "B"⟩]
    (by decide)

/-! ## Claim C6: score components and the final score lie in [0,1] -/

theorem get_source_priority_bounds (s : String) :
    1 ≤ get_source_priority s ∧ get_source_priority s ≤ 5 := by
  unfold get_source_priority
  split_ifs <;> omega

theorem calculate_relevance_bounds (r : SearchResult) (qk : Finset String) :
    0 ≤ calculate_relevance r qk ∧ calculate_relevance r qk ≤ 1 := by
  unfold calculate_relevance
  dsimp only
  split_ifs with h
  · norm_num
  · constructor
    · exact div_nonneg (Nat.cast_nonneg _) (Nat.cast_nonneg _)
    · rw [div_le_one (by
        exact_mod_cast Finset.card_pos.2 (Finset.nonempty_iff_ne_empty.2 h))]
      exact_mod_cast Finset.card_le_card Finset.inter_subset_union

theorem calculate_consensus_bounds (r : SearchResult) (raw : RawResults) :
    0 ≤ calculate_consensus r raw ∧ calculate_consensus r raw ≤ 1 := by
  unfold calculate_consensus
  exact ⟨le_min (div_nonneg (Nat.cast_nonneg _) (by norm_num)) zero_le_one,
    min_le_right _ _⟩

theorem calculate_quality_bounds (r : SearchResult) :
    0 ≤ calculate_quality r ∧ calculate_quality r ≤ 1 := by
  unfold calculate_quality
  dsimp only
  split_ifs <;> norm_num

/-- Claim C6.  Every scored result has its four components in `[0,1]`, its
final score equal to the weighted sum
`0.4·relevance + 0.3·authority + 0.2·consensus + 0.1·quality`, and the final
score again in `[0,1]`. -/
theorem score_components_in_unit_interval :
    ∀ (query : String) (results : List SearchResult) (raw_results : RawResults)
      (s : ScoredResult), s ∈ score_results query results raw_results →
      (0 ≤ s.relevance ∧ s.relevance ≤ 1) ∧
      (0 ≤ s.authority ∧ s.authority ≤ 1) ∧
      (0 ≤ s.consensus ∧ s.consensus ≤ 1) ∧
      (0 ≤ s.quality ∧ s.quality ≤ 1) ∧
      s.final_score =
        s.relevance * 0.4 + s.authority * 0.3 + s.consensus * 0.2 + s.quality * 0.1 ∧
      0 ≤ s.final_score ∧ s.final_score ≤ 1 := by
  intro query results raw_results s hs
  unfold score_results at hs
  simp only [List.mem_map] at hs
  obtain ⟨r, _, rfl⟩ := hs
  have hrel := calculate_relevance_bounds r (wordSet (lowerStr query))
  have hpr := get_source_priority_bounds r.source
  have hauth : 0 ≤ (get_source_priority r.source : ℚ) / 5 ∧
      (get_source_priority r.source : ℚ) / 5 ≤ 1 := by
    constructor
    · exact div_nonneg (Nat.cast_nonneg _) (by norm_num)
    · rw [div_le_one (by norm_num)]
      exact_mod_cast hpr.2
  have hcons := calculate_consensus_bounds r raw_results
  have hqual := calculate_quality_bounds r
  refine ⟨hrel, hauth, hcons, hqual, rfl, ?_, ?_⟩
  · have := hrel.1; have := hauth.1; have := hcons.1; have := hqual.1
    positivity
  · have h1 := hrel.1; have h2 := hrel.2
    have h3 := hauth.1; have h4 := hauth.2
    have h5 := hcons.1; have h6 := hcons.2
    have h7 := hqual.1; have h8 := hqual.2
    norm_num
    linarith

/-- Witness for `score_components_in_unit_interval` at a concrete scored
result. -/
theorem score_components_in_unit_interval_witness :
    0 ≤ ((score_results "q" [⟨"t", "sn", "u", "E"⟩] []).headD
        ⟨"", "", "", "", 0, 0, 0, 0, 0⟩).final_score ∧
      ((score_results "q" [⟨"t", "sn", "u", "E"⟩] []).headD
        ⟨"", "", "", "", 0, 0, 0, 0, 0⟩).final_score ≤ 1 :=
  (score_components_in_unit_interval "q" [⟨"t", "sn", "u", "E"⟩] [] _
    (List.mem_cons_self _ _)).2.2.2.2.2

/-! ## Claim C7: ranking is sorted and stable -/

theorem filter_orderedInsert (a : ScoredResult) (x : ℚ) :
    ∀ l : List ScoredResult,
      (List.orderedInsert byScoreDesc a l).filter (fun s => s.final_score = x) =
        if a.final_score = x then a :: l.filter (fun s => s.final_score = x)
        else l.filter (fun s => s.final_score = x) := by
  intro l
  induction l with
  | nil =>
    by_cases ha : a.final_score = x <;>
      simp [List.orderedInsert, List.filter_cons, ha]
  | cons b l ih =>
    simp only [List.orderedInsert]
    by_cases hab : byScoreDesc a b
    · rw [if_pos hab]
      by_cases ha : a.final_score = x <;> simp [List.filter_cons, ha]
    · rw [if_neg hab]
      have hlt : a.final_score < b.final_score := by
        have := not_le.1 (by simpa [byScoreDesc] using hab)
        exact this
      by_cases hb : b.final_score = x
      · have ha : ¬ a.final_score = x := by
          intro h
          rw [h, hb] at hlt
          exact lt_irrefl x hlt
        simp [List.filter_cons, hb, ha, ih]
      · by_cases ha : a.final_score = x <;> simp [List.filter_cons, hb, ha, ih]

theorem filter_rankResults (x : ℚ) :
    ∀ l : List ScoredResult,
      (rankResults l).filter (fun s => s.final_score = x) =
        l.filter (fun s => s.final_score = x) := by
  intro l
  induction l with
  | nil => rfl
  | cons a l ih =>
    simp only [rankResults, List.insertionSort] at ih ⊢
    rw [filter_orderedInsert]
    by_cases ha : a.final_score = x <;> simp [List.filter_cons, ha, ih]

/-- Claim C7.  The ranked results of `synthesize` are sorted non-increasing
by final score; ties keep the order of the scored (dedup-output) list: for
every score value, ranking does not change the subsequence of results with
that final score; and the output is the truncation of the sorted list. -/
theorem ranking_sorted_and_stable :
    ∀ (query : String) (raw_results : RawResults) (max_results : Nat),
      List.Pairwise byScoreDesc (synthesize query raw_results max_results).results ∧
      (∀ x : ℚ,
        (ranked_results query raw_results).filter (fun s => s.final_score = x) =
          (score_results query (deduplicate (flattenResults raw_results))
            raw_results).filter (fun s => s.final_score = x)) ∧
      (synthesize query raw_results max_results).results =
        (ranked_results query raw_results).take max_results := by
  intro q raw m
  refine ⟨?_, fun x => filter_rankResults x _, rfl⟩
  have hs : List.Pairwise byScoreDesc
      (rankResults (score_results q (deduplicate (flattenResults raw)) raw)) :=
    List.sorted_insertionSort byScoreDesc _
  exact List.Pairwise.sublist (List.take_sublist m _) hs

/-! ## Claim C3: the counts interpolated into the summary -/

theorem flattenResults_length (raw : RawResults) :
    (flattenResults raw).length = (raw.map (fun p => p.2.length)).sum := by
  induction raw with
  | nil => rfl
  | cons p t ih =>
    have ih' : ((t.map (fun p => p.2)).flatten).length = (t.map (fun p => p.2.length)).sum := ih
    simp only [flattenResults, List.map_cons, List.flatten_cons, List.length_append,
      List.sum_cons, ih']

theorem rankResults_length (l : List ScoredResult) :
    (rankResults l).length = l.length :=
  (List.perm_insertionSort byScoreDesc l).length_eq

/-- Claim C3, counterexample.  With two results surviving deduplication and
`max_results = 1`, the summary's `{unique_count}` is the length of the
*truncated* list (1), not `totalUnique` (2). -/
theorem summary_count_counterexample :
    summary_unique_count
        (synthesize "q" [("E", [⟨"", "", "a", "E"⟩, ⟨"", "", "b", "E"⟩])] 1).results = 1 ∧
    (synthesize "q" [("E", [⟨"", "", "a", "E"⟩, ⟨"", "", "b", "E"⟩])] 1).total_unique = 2 ∧
    ((1 : Nat) = 2) = False := by
  have hded : deduplicate
      (flattenResults [("E", [⟨"", "", "a", "E"⟩, ⟨"", "", "b", "E"⟩])]) =
      [⟨"", "", "a", "E"⟩, ⟨"", "", "b", "E"⟩] := by decide
  refine ⟨?_, ?_, eq_false (by decide)⟩
  · show ((ranked_results "q" [("E", [⟨"", "", "a", "E"⟩, ⟨"", "", "b", "E"⟩])]).take 1).length = 1
    rw [List.length_take]
    unfold ranked_results
    rw [rankResults_length]
    unfold score_results
    rw [List.length_map, hded]
    rfl
  · show (deduplicate (flattenResults [("E", [⟨"", "", "a", "E"⟩, ⟨"", "", "b", "E"⟩])])).length = 2
    rw [hded]
    rfl

/-- Claim C3, amended.  The `{unique_count}` interpolated into the summary
is the length of the truncated ranked list, `min max_results totalUnique`
(so it equals `totalUnique` exactly when no truncation occurs), and the
`{total_sources}` value always equals `totalRaw`. -/
theorem summary_counts_amended :
    ∀ (query : String) (raw_results : RawResults) (max_results : Nat),
      summary_unique_count (synthesize query raw_results max_results).results =
        min max_results (synthesize query raw_results max_results).total_unique ∧
      summary_total_sources raw_results =
        (synthesize query raw_results max_results).total_raw := by
  intro q raw m
  constructor
  · show ((ranked_results q raw).take m).length =
      min m (deduplicate (flattenResults raw)).length
    rw [List.length_take]
    unfold ranked_results
    rw [rankResults_length]
    unfold score_results
    rw [List.length_map]
  · show (raw.map (fun p => p.2.length)).sum = (flattenResults raw).length
    rw [flattenResults_length]

/-! ## Orchestrator lemmas (claims C8 and C10) -/

theorem search_allAux_names (sub_queries : List String) :
    ∀ (i : Nat) (engines : Engines),
      (search_allAux sub_queries i engines).map Prod.fst = engines.map Prod.fst := by
  intro i engines
  induction engines generalizing i with
  | nil => rfl
  | cons e rest ih =>
    simp [search_allAux, ih]

theorem search_allAux_length (sub_queries : List String) :
    ∀ (i : Nat) (engines : Engines),
      (search_allAux sub_queries i engines).length = engines.length := by
  intro i engines
  induction engines generalizing i with
  | nil => rfl
  | cons e rest ih =>
    simp [search_allAux, ih]

theorem search_allAux_getElem (sub_queries : List String) :
    ∀ (engines : Engines) (i0 i : Nat),
      (search_allAux sub_queries i0 engines)[i]? =
        (engines[i]?).map
          (fun nb => (nb.1, search_with_timeout (nb.2 (assignedQuery sub_queries (i0 + i))))) := by
  intro engines
  induction engines with
  | nil => intro i0 i; simp [search_allAux]
  | cons e rest ih =>
    intro i0 i
    cases i with
    | zero => simp [search_allAux]
    | succ i =>
      have hidx : i0 + 1 + i = i0 + (i + 1) := by omega
      simpa [search_allAux, hidx] using ih (i0 + 1) i

/-! ## Claim C8: per-engine failure isolation in batch mode -/

/-- Claim C8.  Batch mode returns one entry per registered engine (the
keys, in registration order, are exactly the registered names); if the
`k`-th engine's task times out or raises, that engine's entry is the empty
list; and every other engine's entry is identical to what it is in a run
where the `k`-th engine behaves arbitrarily differently — siblings are
unaffected within the same call. -/
theorem engine_failure_isolation :
    ∀ (engines engines' : Engines) (sub_queries : List String) (k : Nat)
      (name : String) (beh beh' : String → EngineOutcome),
      (∀ i, i ≠ k → engines[i]? = engines'[i]?) →
      engines[k]? = some (name, beh) →
      engines'[k]? = some (name, beh') →
      (beh' (assignedQuery sub_queries k) = EngineOutcome.timeout ∨
        beh' (assignedQuery sub_queries k) = EngineOutcome.exn) →
      (search_all engines' sub_queries).map Prod.fst = engines'.map Prod.fst ∧
      (search_all engines' sub_queries)[k]? = some (name, []) ∧
      (∀ i, i ≠ k →
        (search_all engines' sub_queries)[i]? = (search_all engines sub_queries)[i]?) := by
  intro engines engines' subs k name beh beh' hagree hk hk' hfail
  refine ⟨search_allAux_names subs 0 engines', ?_, ?_⟩
  · show (search_allAux subs 0 engines')[k]? = some (name, [])
    rw [search_allAux_getElem subs engines' 0 k, hk']
    have hzero : (0 : Nat) + k = k := Nat.zero_add k
    rcases hfail with h | h <;>
      simp [hzero, h, search_with_timeout]
  · intro i hi
    show (search_allAux subs 0 engines')[i]? = (search_allAux subs 0 engines)[i]?
    rw [search_allAux_getElem subs engines' 0 i, search_allAux_getElem subs engines 0 i,
      hagree i hi]

/-- Witness for `engine_failure_isolation`: two engines, the second times
out in the primed run. -/
theorem engine_failure_isolation_witness :
    (search_all [("A", fun _ => EngineOutcome.ok [⟨"t", "s", "u", "A"⟩]),
        ("B", fun _ => EngineOutcome.timeout)] ["s"])[1]? = some ("B", []) :=
  (engine_failure_isolation
    [("A", fun _ => EngineOutcome.ok [⟨"t", "s", "u", "A"⟩]),
      ("B", fun _ => EngineOutcome.ok [⟨"t2", "s2", "u2", "B"⟩])]
    [("A", fun _ => EngineOutcome.ok [⟨"t", "s", "u", "A"⟩]),
      ("B", fun _ => EngineOutcome.timeout)]
    ["s"] 1 "B" (fun _ => EngineOutcome.ok [⟨"t2", "s2", "u2", "B"⟩])
    (fun _ => EngineOutcome.timeout)
    (fun i hi => by
      match i with
      | 0 => rfl
      | 1 => exact absurd rfl hi
      | n + 2 => rfl)
    rfl rfl (Or.inl rfl)).2.1

/-! ## Claim C10: streaming and batch modes agree -/

theorem map_getD_range (d : String × List SearchResult) :
    ∀ l : List (String × List SearchResult),
      (List.range l.length).map (fun i => l.getD i d) = l := by
  intro l
  induction l with
  | nil => rfl
  | cons a t ih =>
    rw [List.length_cons, List.range_succ_eq_map]
    simp only [List.map_cons, List.map_map]
    have hcomp : ((fun i => (a :: t).getD i d) ∘ Nat.succ) = fun i => t.getD i d :=
      funext fun i => rfl
    rw [hcomp, ih]
    rfl

/-- Claim C10.  For any completion order (a permutation of the task
indices), the streamed pairs are a permutation of the batch map's entries —
the multiset of streamed pairs equals the batch entries — and in particular
the total number of streamed results equals the batch total. -/
theorem streaming_batch_agree :
    ∀ (engines : Engines) (sub_queries : List String) (order : List Nat),
      order.Perm (List.range engines.length) →
      (search_all_streaming engines sub_queries order).Perm
        (search_all engines sub_queries) ∧
      ((search_all_streaming engines sub_queries order).map
          (fun p => p.2.length)).sum =
        ((search_all engines sub_queries).map (fun p => p.2.length)).sum := by
  intro engines subs order hperm
  have hlen : (search_all engines subs).length = engines.length :=
    search_allAux_length subs 0 engines
  have hbatch : (List.range engines.length).map
      (fun i => (search_all engines subs).getD i ("", [])) = search_all engines subs := by
    rw [← hlen]
    exact map_getD_range ("", []) (search_all engines subs)
  have hp : (search_all_streaming engines subs order).Perm (search_all engines subs) := by
    unfold search_all_streaming
    have h1 : (order.map fun i => (search_all engines subs).getD i ("", [])).Perm
        ((List.range engines.length).map fun i =>
          (search_all engines subs).getD i ("", [])) :=
      hperm.map _
    rw [hbatch] at h1
    exact h1
  exact ⟨hp, (hp.map (fun p => p.2.length)).sum_eq⟩

/-- Witness for `streaming_batch_agree` with two engines streamed in
reversed completion order. -/
theorem streaming_batch_agree_witness :
    ((search_all_streaming [("A", fun _ => EngineOutcome.ok [⟨"t", "s", "u", "A"⟩]),
        ("B", fun _ => EngineOutcome.ok [])] ["s"] [1, 0]).map
        (fun p => p.2.length)).sum =
      ((search_all [("A", fun _ => EngineOutcome.ok [⟨"t", "s", "u", "A"⟩]),
        ("B", fun _ => EngineOutcome.ok [])] ["s"]).map (fun p => p.2.length)).sum :=
  (streaming_batch_agree
    [("A", fun _ => EngineOutcome.ok [⟨"t", "s", "u", "A"⟩]),
      ("B", fun _ => EngineOutcome.ok [])] ["s"] [1, 0] (by decide)).2

end AiSearch
